import Mathlib

set_option maxRecDepth 16384

/-! Verification development for bib_to_obsidian.py.

The script converts BibTeX records into Markdown literature notes.  Strings
are modelled as Lean String values (a structure over List Char); the
character-level helpers below mirror the Python string operations the script
uses, restricted to the ASCII range in which the script is exercised.
-/

/-- ASCII whitespace as recognised by Python str.strip, str.split and the
regex whitespace class: space, tab, newline, carriage return, vertical tab
and form feed. -/
def pyIsSpace (c : Char) : Bool :=
  c == ' ' || c == '\t' || c == '\n' || c == '\r' || c == '\x0b' || c == '\x0c'

/-- Remove the maximal all-whitespace suffix of a character list (the right
half of Python str.strip). -/
def dropTrailingWS : List Char → List Char
  | [] => []
  | c :: cs =>
    match dropTrailingWS cs with
    | [] => if pyIsSpace c then [] else [c]
    | r => c :: r

/-- Python str.strip on a character list: drop the maximal whitespace prefix
and suffix. -/
def pyStripL (l : List Char) : List Char :=
  dropTrailingWS (l.dropWhile pyIsSpace)

/-- The characters matched by the regex character class in sanitize_filename:
backslash, slash, star, question mark, colon, double quote, angle brackets and
the vertical bar. -/
def isIllegalFilenameChar (c : Char) : Bool :=
  c == '\\' || c == '/' || c == '*' || c == '?' || c == ':' ||
    c == '\x22' || c == '<' || c == '>' || c == '|'

/-- sanitize_filename from the script: re.sub removes every illegal character,
the slice keeps the first 150 characters, and strip removes surrounding
whitespace (in that order). -/
def sanitize_filename (name : String) : String :=
  ⟨pyStripL ((name.data.filter (fun c => !isIllegalFilenameChar c)).take 150)⟩

/-- clean_title from the script: re.sub removes every curly brace. -/
def clean_title (title : String) : String :=
  ⟨title.data.filter (fun c => !(c == '\x7b' || c == '\x7d'))⟩

/-- True when the list is empty or starts with a non-whitespace character. -/
def noWSHead : List Char → Bool
  | [] => true
  | c :: _ => !pyIsSpace c

/-- True when the list is empty or ends with a non-whitespace character. -/
def noWSLast (l : List Char) : Bool :=
  match l.getLast? with
  | none => true
  | some c => !pyIsSpace c

theorem dropTrailingWS_sublist (l : List Char) :
    List.Sublist (dropTrailingWS l) l := by
  induction l with
  | nil => simp [dropTrailingWS]
  | cons c cs ih =>
    simp only [dropTrailingWS]
    cases h : dropTrailingWS cs with
    | nil =>
      by_cases hsp : pyIsSpace c
      · simp [hsp]
      · simp [hsp]
    | cons r rs =>
      rw [h] at ih
      exact ih.cons₂ c

theorem length_dropTrailingWS_le (l : List Char) :
    (dropTrailingWS l).length ≤ l.length :=
  (dropTrailingWS_sublist l).length_le

theorem dropWhile_sublist' (p : Char → Bool) (l : List Char) :
    List.Sublist (l.dropWhile p) l := by
  induction l with
  | nil => simp [List.dropWhile]
  | cons c cs ih =>
    by_cases h : p c
    · simpa [List.dropWhile, h] using ih.cons c
    · simp [List.dropWhile, h]

theorem pyStripL_sublist (l : List Char) : List.Sublist (pyStripL l) l :=
  (dropTrailingWS_sublist _).trans (dropWhile_sublist' pyIsSpace l)

theorem pyStripL_length_le (l : List Char) : (pyStripL l).length ≤ l.length :=
  (pyStripL_sublist l).length_le

theorem noWSHead_dropWhile (l : List Char) :
    noWSHead (l.dropWhile pyIsSpace) = true := by
  induction l with
  | nil => simp [List.dropWhile, noWSHead]
  | cons c cs ih =>
    by_cases h : pyIsSpace c
    · simpa [List.dropWhile, h] using ih
    · simp [List.dropWhile, h, noWSHead]

theorem noWSHead_dropTrailingWS (l : List Char) (h : noWSHead l = true) :
    noWSHead (dropTrailingWS l) = true := by
  cases l with
  | nil => simp [dropTrailingWS, noWSHead]
  | cons c cs =>
    simp only [noWSHead, Bool.not_eq_true'] at h
    simp only [dropTrailingWS]
    cases hcs : dropTrailingWS cs with
    | nil => simp [h, noWSHead]
    | cons r rs => simp [noWSHead, h]

theorem noWSLast_dropTrailingWS (l : List Char) :
    noWSLast (dropTrailingWS l) = true := by
  induction l with
  | nil => simp [dropTrailingWS, noWSLast]
  | cons c cs ih =>
    simp only [dropTrailingWS]
    cases hcs : dropTrailingWS cs with
    | nil =>
      by_cases hsp : pyIsSpace c
      · simp [hsp, noWSLast]
      · simp [hsp, noWSLast, List.getLast?_singleton]
    | cons r rs =>
      rw [hcs] at ih
      simpa [noWSLast, List.getLast?_cons_cons] using ih

/-- A 151-character title: 149 copies of the letter a, a space, then b.  Its
sanitized form shows truncation happening before stripping. -/
def longTitle : String := ⟨List.replicate 149 'a' ++ [' ', 'b']⟩

/-- C10: for every input string, sanitize_filename returns at most 150
characters and the result has no leading or trailing whitespace; because the
strip runs after the 150-character truncation, the 151-character longTitle
sanitizes to only 149 characters. -/
theorem c10_sanitize_invariant :
    (∀ s : String, (sanitize_filename s).length ≤ 150
      ∧ noWSHead (sanitize_filename s).data = true
      ∧ noWSLast (sanitize_filename s).data = true)
    ∧ longTitle.length = 151
    ∧ (sanitize_filename longTitle).length = 149 := by
  refine ⟨fun s => ⟨?_, ?_, ?_⟩, by decide, by decide⟩
  · have h1 : (pyStripL ((s.data.filter (fun c => !isIllegalFilenameChar c)).take 150)).length
        ≤ ((s.data.filter (fun c => !isIllegalFilenameChar c)).take 150).length :=
      pyStripL_length_le _
    have h2 : ((s.data.filter (fun c => !isIllegalFilenameChar c)).take 150).length ≤ 150 :=
      List.length_take_le 150 _
    exact le_trans h1 h2
  · exact noWSHead_dropTrailingWS _ (noWSHead_dropWhile _)
  · exact noWSLast_dropTrailingWS _

/-- Lines 93 and 94 of the script: the output filename built from the cleaned
title and the BibTeX key. -/
def noteFileName (title bib_key : String) : String :=
  sanitize_filename title ++ " (" ++ bib_key ++ ").md"

/-- Sanitization exactly as claim C4 words it: remove every illegal character
and truncate the result to 150 characters, with no whitespace stripping. -/
def claimSanitizeC4 (name : String) : String :=
  ⟨(name.data.filter (fun c => !isIllegalFilenameChar c)).take 150⟩

/-- The output filename exactly as claim C4 words it. -/
def claimFileNameC4 (title bib_key : String) : String :=
  claimSanitizeC4 title ++ " (" ++ bib_key ++ ").md"

/-- C4 counterexample: on the 151-character longTitle, truncation leaves a
trailing space that the script then strips, so the real filename has 149
characters before the suffix while the filename described by the claim keeps
the trailing space; the two filenames differ. -/
theorem c4_counterexample :
    noteFileName longTitle "x" = ⟨List.replicate 149 'a' ++ " (x).md".data⟩
    ∧ claimFileNameC4 longTitle "x" = ⟨List.replicate 149 'a' ++ (' ' :: " (x).md".data)⟩
    ∧ (noteFileName longTitle "x" == claimFileNameC4 longTitle "x") = false := by
  exact ⟨by decide, by decide, by decide⟩

/-- Sanitization as amended for C4: remove every character of the illegal set,
truncate to the first 150 characters, then strip surrounding whitespace. -/
def amendedSanitizeC4 (name : String) : String :=
  ⟨pyStripL ((name.data.filter (fun c => !isIllegalFilenameChar c)).take 150)⟩

/-- C4 (amended): the output filename equals sanitize(title) followed by the
key suffix, where sanitize removes the illegal characters, truncates to the
first 150 characters and then strips surrounding whitespace; and the
sanitized portion never contains a colon or a slash. -/
theorem c4_filename_amended :
    (∀ title bib_key : String,
      noteFileName title bib_key = amendedSanitizeC4 title ++ " (" ++ bib_key ++ ").md")
    ∧ (∀ title : String,
      (sanitize_filename title).data.all (fun c => !(c == ':') && !(c == '/')) = true) := by
  constructor
  · intro t k
    rfl
  · intro t
    rw [List.all_eq_true]
    intro c hc
    have hmem : c ∈ t.data.filter (fun c => !isIllegalFilenameChar c) :=
      ((pyStripL_sublist _).trans (List.take_sublist 150 _)).mem hc
    have hleg := (List.mem_filter.mp hmem).2
    simp only [Bool.not_eq_true', isIllegalFilenameChar, Bool.or_eq_false_iff,
      beq_eq_false_iff_ne, ne_eq] at hleg
    obtain ⟨⟨⟨⟨⟨⟨⟨⟨h1, h2⟩, h3⟩, h4⟩, h5⟩, h6⟩, h7⟩, h8⟩, h9⟩ := hleg
    simp [h5, h2]

/-- Python str.title restricted to ASCII: an alphabetic character is
uppercased when it does not follow another alphabetic character and lowercased
otherwise; every other character passes through and resets the word state. -/
def pyTitleGo (prevCased : Bool) : List Char → List Char
  | [] => []
  | c :: cs =>
    if c.isAlpha then (if prevCased then c.toLower else c.toUpper) :: pyTitleGo true cs
    else c :: pyTitleGo false cs

/-- Python str.title. -/
def pyTitle (l : List Char) : List Char := pyTitleGo false l

/-- Python str.split with no separator: split on whitespace runs, returning no
empty pieces.  The accumulator holds the current word reversed. -/
def pySplitAux (acc : List Char) : List Char → List (List Char)
  | [] => if acc.isEmpty then [] else [acc.reverse]
  | c :: cs =>
    if pyIsSpace c then
      if acc.isEmpty then pySplitAux [] cs else acc.reverse :: pySplitAux [] cs
    else pySplitAux (c :: acc) cs

/-- Python str.split with no separator. -/
def pySplit (l : List Char) : List (List Char) := pySplitAux [] l

/-- The regex split on the semicolon/comma character class: cut at every
semicolon or comma, keeping empty pieces. -/
def splitSemiCommaAux (acc : List Char) : List Char → List (List Char)
  | [] => [acc.reverse]
  | c :: cs =>
    if c == ';' || c == ',' then acc.reverse :: splitSemiCommaAux [] cs
    else splitSemiCommaAux (c :: acc) cs

/-- re.split on the semicolon/comma character class. -/
def splitSemiComma (l : List Char) : List (List Char) := splitSemiCommaAux [] l

/-- str.replace with the two single-character arguments hyphen and slash. -/
def hyphenToSlash (c : Char) : Char := if c == '-' then '/' else c

/-- format_tags from the script: the empty keyword string gives no tags;
otherwise split on semicolons and commas and, for every piece whose strip is
non-empty, emit the strip-title-split-join-replace result, in order. -/
def format_tags (keywords_str : String) : List String :=
  if keywords_str = "" then []
  else
    (splitSemiComma keywords_str.data).foldl
      (fun tags kw =>
        if pyStripL kw = [] then tags
        else tags ++ [⟨((pySplit (pyTitle (pyStripL kw))).flatten).map hyphenToSlash⟩])
      []

/-- Emit a finished whitespace run: a run containing a line break becomes one
space, any other run is kept as it was read (the run is accumulated in
reverse). -/
def flushWSRun (run : List Char) : List Char :=
  if run.contains '\n' then [' '] else run.reverse

/-- Scanner for the regex substitution replacing whitespace runs that contain
a line break: the accumulator holds the current whitespace run reversed. -/
def collapseNLAux (run : List Char) : List Char → List Char
  | [] => flushWSRun run
  | c :: cs =>
    if pyIsSpace c then collapseNLAux (c :: run) cs
    else flushWSRun run ++ c :: collapseNLAux [] cs

/-- The regex substitution used for author strings and abstracts: every
maximal whitespace run that contains a line break is replaced by one space;
whitespace runs without a line break and all other characters are kept. -/
def collapseNL (l : List Char) : List Char := collapseNLAux [] l

/-- Python str.split on the five-character literal " and ": cut at each
leftmost occurrence and continue after it.  The accumulator holds the current
piece reversed. -/
def splitAndAux (acc : List Char) : List Char → List (List Char)
  | ' ' :: 'a' :: 'n' :: 'd' :: ' ' :: rest => acc.reverse :: splitAndAux [] rest
  | c :: cs => splitAndAux (c :: acc) cs
  | [] => [acc.reverse]

/-- Python str.split on the literal " and ". -/
def splitAnd (l : List Char) : List (List Char) := splitAndAux [] l

/-- parse_authors from the script: the empty author string gives no authors;
otherwise collapse whitespace runs containing a line break to one space, split
on the literal " and ", and strip each resulting piece. -/
def parse_authors (authors_str : String) : List String :=
  if authors_str = "" then []
  else (splitAnd (collapseNL authors_str.data)).map (fun a => ⟨pyStripL a⟩)

/-- Drop every whitespace character of the list. -/
def removeWS (l : List Char) : List Char := l.filter (fun c => !pyIsSpace c)

theorem pyIsSpace_not_alpha (c : Char) (h : pyIsSpace c = true) :
    c.isAlpha = false := by
  simp only [pyIsSpace, Bool.or_eq_true, beq_iff_eq] at h
  rcases h with ((((h | h) | h) | h) | h) | h <;> subst h <;> decide

theorem pyTitleGo_all_ws (b : Bool) (l : List Char)
    (h : ∀ c ∈ l, pyIsSpace c = true) : pyTitleGo b l = l := by
  induction l generalizing b with
  | nil => rfl
  | cons c cs ih =>
    have ha : c.isAlpha = false := pyIsSpace_not_alpha c (h c (by simp))
    simp [pyTitleGo, ha, ih false (fun x hx => h x (by simp [hx]))]

theorem pyTitleGo_append_ws (b : Bool) (l t : List Char)
    (h : ∀ c ∈ t, pyIsSpace c = true) :
    pyTitleGo b (l ++ t) = pyTitleGo b l ++ t := by
  induction l generalizing b with
  | nil => simpa using pyTitleGo_all_ws b t h
  | cons c cs ih =>
    by_cases ha : c.isAlpha
    · simp [pyTitleGo, ha, ih true]
    · simp [pyTitleGo, ha, ih false]

theorem removeWS_all_ws (t : List Char) (h : ∀ c ∈ t, pyIsSpace c = true) :
    removeWS t = [] := by
  simp only [removeWS, List.filter_eq_nil_iff]
  intro c hc
  simp [h c hc]

theorem dropTrailingWS_decomp (l : List Char) :
    ∃ t, l = dropTrailingWS l ++ t ∧ ∀ c ∈ t, pyIsSpace c = true := by
  induction l with
  | nil => exact ⟨[], rfl, by simp⟩
  | cons c cs ih =>
    obtain ⟨t, ht, hws⟩ := ih
    simp only [dropTrailingWS]
    cases hcs : dropTrailingWS cs with
    | nil =>
      rw [hcs, List.nil_append] at ht
      by_cases hsp : pyIsSpace c
      · refine ⟨c :: cs, by simp [hsp], ?_⟩
        intro x hx
        rcases List.mem_cons.mp hx with h | h
        · subst h; exact hsp
        · exact hws x (ht ▸ h)
      · exact ⟨t, by simp [hsp, ht], hws⟩
    | cons r rs =>
      rw [hcs] at ht
      exact ⟨t, by simpa using ht, hws⟩

theorem removeWS_pyTitleGo_dropTrailing (l : List Char) (b : Bool) :
    removeWS (pyTitleGo b (dropTrailingWS l)) = removeWS (pyTitleGo b l) := by
  obtain ⟨t, ht, hws⟩ := dropTrailingWS_decomp l
  conv_rhs => rw [ht]
  rw [pyTitleGo_append_ws b _ t hws]
  simp only [removeWS, List.filter_append]
  rw [show List.filter (fun c => !pyIsSpace c) t = [] from removeWS_all_ws t hws]
  rw [List.append_nil]

theorem removeWS_pyTitleGo_dropWhile (l : List Char) :
    removeWS (pyTitleGo false (l.dropWhile pyIsSpace))
      = removeWS (pyTitleGo false l) := by
  induction l with
  | nil => rfl
  | cons c cs ih =>
    by_cases hsp : pyIsSpace c
    · have ha : c.isAlpha = false := pyIsSpace_not_alpha c hsp
      rw [show (c :: cs).dropWhile pyIsSpace = cs.dropWhile pyIsSpace from by
        simp [List.dropWhile, hsp]]
      rw [ih]
      simp [pyTitleGo, ha, removeWS, hsp]
    · simp [List.dropWhile, hsp]

theorem removeWS_pyTitle_pyStripL (l : List Char) :
    removeWS (pyTitle (pyStripL l)) = removeWS (pyTitle l) := by
  unfold pyTitle pyStripL
  rw [removeWS_pyTitleGo_dropTrailing, removeWS_pyTitleGo_dropWhile]

theorem flatten_pySplitAux (l acc : List Char) :
    (pySplitAux acc l).flatten = acc.reverse ++ removeWS l := by
  induction l generalizing acc with
  | nil =>
    cases acc with
    | nil => simp [pySplitAux, removeWS]
    | cons a as => simp [pySplitAux, removeWS]
  | cons c cs ih =>
    by_cases hsp : pyIsSpace c
    · cases acc with
      | nil => simp [pySplitAux, hsp, ih, removeWS]
      | cons a as => simp [pySplitAux, hsp, ih, removeWS]
    · simp [pySplitAux, hsp, ih, removeWS, List.append_assoc]

theorem dropTrailingWS_eq_nil_iff (l : List Char) :
    dropTrailingWS l = [] ↔ ∀ c ∈ l, pyIsSpace c = true := by
  induction l with
  | nil => simp [dropTrailingWS]
  | cons c cs ih =>
    simp only [dropTrailingWS]
    cases hcs : dropTrailingWS cs with
    | nil =>
      have hws := ih.mp hcs
      by_cases hsp : pyIsSpace c
      · simp only [hsp, if_true]
        constructor
        · intro _ x hx
          rcases List.mem_cons.mp hx with h | h
          · subst h; exact hsp
          · exact hws x h
        · intro _; trivial
      · simp only [hsp, if_false]
        constructor
        · intro h; exact absurd h (by simp)
        · intro h; exact absurd (h c (by simp)) (by simp [hsp])
    | cons r rs =>
      constructor
      · intro h; exact absurd h (by simp)
      · intro h
        have : dropTrailingWS cs = [] := ih.mpr (fun x hx => h x (by simp [hx]))
        rw [this] at hcs
        exact absurd hcs (by simp)

theorem pyStripL_eq_nil_iff (l : List Char) :
    pyStripL l = [] ↔ ∀ c ∈ l, pyIsSpace c = true := by
  unfold pyStripL
  rw [dropTrailingWS_eq_nil_iff]
  constructor
  · intro h c hc
    rcases List.mem_append.mp
        ((List.takeWhile_append_dropWhile (p := pyIsSpace) (l := l)) ▸ hc) with hm | hm
    · exact List.mem_takeWhile_imp hm
    · exact h c hm
  · intro h c hc
    exact h c ((dropWhile_sublist' pyIsSpace l).mem hc)

theorem foldl_append_if_eq_filterMap (f : List Char → String)
    (P : List Char → Prop) [DecidablePred P]
    (l : List (List Char)) (acc : List String) :
    l.foldl (fun tags kw => if P kw then tags else tags ++ [f kw]) acc
      = acc ++ l.filterMap (fun kw => if P kw then none else some (f kw)) := by
  induction l generalizing acc with
  | nil => simp
  | cons kw l ih =>
    by_cases h : P kw
    · simp [h, ih]
    · simp [h, ih]

/-- Tag formatting exactly as claim C1 words it: split the keyword string on
semicolons and commas, discard empty or whitespace-only segments, and for each
remaining segment title-case it, remove all its whitespace and replace every
hyphen by a slash, in source order. -/
def claimFormatTagsC1 (keywords_str : String) : List String :=
  (splitSemiComma keywords_str.data).filterMap
    (fun kw =>
      if ∀ c ∈ kw, pyIsSpace c = true then none
      else some ⟨(removeWS (pyTitle kw)).map hyphenToSlash⟩)

/-- C1: format_tags splits on semicolons and commas, discards empty and
whitespace-only segments, and title-cases each remaining segment, removes its
whitespace and maps hyphens to slashes, in source order; the example keyword
string gives the three expected tags and the empty string gives no tags. -/
theorem c1_format_tags :
    format_tags "" = []
    ∧ format_tags "a-b; c,d-e" = ["A/B", "C", "D/E"]
    ∧ ∀ s : String, format_tags s = claimFormatTagsC1 s := by
  have hfun : ∀ kw : List Char,
      (if pyStripL kw = [] then (none : Option String)
       else some ⟨((pySplit (pyTitle (pyStripL kw))).flatten).map hyphenToSlash⟩)
      = (if ∀ c ∈ kw, pyIsSpace c = true then none
         else some ⟨(removeWS (pyTitle kw)).map hyphenToSlash⟩) := by
    intro kw
    by_cases h : pyStripL kw = []
    · rw [if_pos h, if_pos ((pyStripL_eq_nil_iff kw).mp h)]
    · rw [if_neg h, if_neg (fun hall => h ((pyStripL_eq_nil_iff kw).mpr hall))]
      have hval : (pySplit (pyTitle (pyStripL kw))).flatten
          = removeWS (pyTitle kw) := by
        rw [show (pySplit (pyTitle (pyStripL kw))).flatten
            = removeWS (pyTitle (pyStripL kw)) from by
          simpa using flatten_pySplitAux (pyTitle (pyStripL kw)) []]
        exact removeWS_pyTitle_pyStripL kw
      rw [hval]
  refine ⟨rfl, by decide, ?_⟩
  intro s
  unfold format_tags claimFormatTagsC1
  by_cases hs : s = ""
  · subst hs
    rw [if_pos rfl]
    rw [show splitSemiComma ("" : String).data = [[]] from rfl]
    rw [List.filterMap_cons]
    simp
  · rw [if_neg hs, foldl_append_if_eq_filterMap
      (fun kw => ⟨((pySplit (pyTitle (pyStripL kw))).flatten).map hyphenToSlash⟩)
      (fun kw => pyStripL kw = []) (splitSemiComma s.data) []]
    rw [List.nil_append]
    exact List.filterMap_congr (fun kw _ => hfun kw)

/-- C3: parse_authors returns no authors for the empty string; otherwise it
collapses every whitespace run containing a line break into one space, splits
on the exact literal " and ", and strips surrounding whitespace from each
name.  The two-author example and an input with an embedded line break parse
as the claim states. -/
theorem c3_parse_authors :
    parse_authors "" = []
    ∧ parse_authors "Jane Doe and John Q. Smith" = ["Jane Doe", "John Q. Smith"]
    ∧ parse_authors "Jane\n Doe and  Bob" = ["Jane Doe", "Bob"]
    ∧ ∀ s : String, parse_authors s
        = if s = "" then []
          else (splitAnd (collapseNL s.data)).map (fun a => ⟨pyStripL a⟩) := by
  exact ⟨rfl, by decide, by decide, fun s => rfl⟩

/-- A bibliographic Record: the field-name-to-value mapping produced by the
external BibTeX parser, modelled as an association list with distinct keys. -/
abbrev Record := List (String × String)

/-- Python dict.get(key, dflt): the stored value when the key is present, the
default otherwise. -/
def recordGet (entry : Record) (key dflt : String) : String :=
  (List.lookup key entry).getD dflt

/-- Python or on two strings: the first when it is non-empty (truthy), the
second otherwise. -/
def pyOrStr (a b : String) : String := if a = "" then b else a

/-- Python split on hyphen, first component: everything before the first
hyphen, or the whole string when it contains none. -/
def datePrefix (d : String) : String :=
  ⟨d.data.takeWhile (fun c => !(c == '-'))⟩

/-- Line 48 of the script: year = entry.get(year, empty) or
entry.get(date, n.d.) split on hyphen, first component. -/
def yearOf (entry : Record) : String :=
  pyOrStr (recordGet entry "year" "") (datePrefix (recordGet entry "date" "n.d."))

/-- Lines 55 to 58 of the script: the abstract is left alone when empty and
otherwise has its line-break whitespace runs collapsed and its surrounding
whitespace stripped. -/
def cleanAbstract (abstract : String) : String :=
  if abstract = "" then abstract else ⟨pyStripL (collapseNL abstract.data)⟩

/-- The Transformed Fields extracted from one Record by lines 43 to 58 of
create_literature_note_from_entry. -/
structure TransformedFields where
  bib_key : String
  title : String
  journal : String
  doi : String
  url : String
  year : String
  tags : List String
  authors : List String
  abstract : String
deriving Repr, DecidableEq

/-- Lines 43 to 58 of create_literature_note_from_entry: pure field
extraction from one Record. -/
def fieldsOfEntry (entry : Record) : TransformedFields where
  bib_key := recordGet entry "ID" "no_id"
  title := clean_title (recordGet entry "title" "No Title")
  journal := pyOrStr (recordGet entry "journaltitle" "") (recordGet entry "journal" "")
  doi := recordGet entry "doi" ""
  url := recordGet entry "url" ""
  year := yearOf entry
  tags := format_tags (recordGet entry "keywords" "")
  authors := parse_authors (recordGet entry "author" "")
  abstract := cleanAbstract (recordGet entry "abstract" "")

/-- Lines 61 to 75 of the script: the lines of the front-matter block between
the two marker lines, with each conditional exactly as in the code. -/
def frontMatterLines (f : TransformedFields) : List String :=
  ["title: \"" ++ f.title ++ "\""]
  ++ (if f.authors ≠ [] then "author:" :: f.authors.map (fun a => "  - " ++ a) else [])
  ++ (if f.journal ≠ "" then ["journal: \"" ++ f.journal ++ "\""] else [])
  ++ (if f.year ≠ "" ∧ f.year ≠ "n.d." then ["year: " ++ f.year] else [])
  ++ (if f.doi ≠ "" then ["doi: \"" ++ f.doi ++ "\""] else [])
  ++ (if f.url ≠ "" then ["url: " ++ f.url] else [])
  ++ (if f.tags ≠ [] then "tags:" :: f.tags.map (fun t => "  - " ++ t) else [])

/-- Line 77 of the script: the Markdown heading of the note body. -/
def headingLine (f : TransformedFields) : String := "# " ++ f.title

/-- The filename of the note generated for one Record (lines 93 to 94). -/
def fileNameOf (entry : Record) : String :=
  noteFileName (fieldsOfEntry entry).title (fieldsOfEntry entry).bib_key

theorem yearPrefix_of_head (l : List Char)
    (h : ("year:".data.isPrefixOf l) = true) : l.head? = some 'y' := by
  cases l with
  | nil => exact absurd h (by decide)
  | cons a as =>
    rw [show "year:".data = 'y' :: "ear:".data from rfl] at h
    simp only [List.isPrefixOf, Bool.and_eq_true, beq_iff_eq] at h
    rw [List.head?_cons, ← h.1]

theorem not_year_prefix_of_head (l : List Char) (c : Char)
    (hc : l.head? = some c) (hne : ¬c = 'y') :
    ("year:".data.isPrefixOf l) = false := by
  cases hpf : ("year:".data.isPrefixOf l) with
  | false => rfl
  | true =>
    have hy := yearPrefix_of_head l hpf
    rw [hc] at hy
    exact absurd (Option.some.inj hy) hne

theorem not_prefix_bang (a c : Char) (p l : List Char)
    (hc : l.head? = some c) (hne : ¬(a = c)) :
    (!((a :: p).isPrefixOf l)) = true := by
  cases l with
  | nil => rfl
  | cons b bs =>
    simp only [List.head?_cons, Option.some.injEq] at hc
    subst hc
    simp [List.isPrefixOf, hne]

theorem no_year_line_of_sentinel (f : TransformedFields)
    (hy : f.year = "" ∨ f.year = "n.d.") :
    (frontMatterLines f).all (fun l => !("year:".data.isPrefixOf l.data)) = true := by
  have hyc : ¬(f.year ≠ "" ∧ f.year ≠ "n.d.") := by
    rcases hy with h | h <;> simp [h]
  simp only [frontMatterLines, if_neg hyc, List.all_append, Bool.and_eq_true]
  refine ⟨⟨⟨⟨⟨⟨?_, ?_⟩, ?_⟩, rfl⟩, ?_⟩, ?_⟩, ?_⟩
  · simp only [List.all_cons, List.all_nil, Bool.and_true]
    exact not_prefix_bang 'y' 't' _ _ rfl (by decide)
  · split
    · simp only [List.all_cons, Bool.and_eq_true]
      refine ⟨not_prefix_bang 'y' 'a' _ _ rfl (by decide), ?_⟩
      rw [List.all_eq_true]
      intro l hl
      obtain ⟨a, _, rfl⟩ := List.mem_map.mp hl
      exact not_prefix_bang 'y' ' ' _ _ rfl (by decide)
    · rfl
  · split
    · simp only [List.all_cons, List.all_nil, Bool.and_true]
      exact not_prefix_bang 'y' 'j' _ _ rfl (by decide)
    · rfl
  · split
    · simp only [List.all_cons, List.all_nil, Bool.and_true]
      exact not_prefix_bang 'y' 'd' _ _ rfl (by decide)
    · rfl
  · split
    · simp only [List.all_cons, List.all_nil, Bool.and_true]
      exact not_prefix_bang 'y' 'u' _ _ rfl (by decide)
    · rfl
  · split
    · simp only [List.all_cons, Bool.and_eq_true]
      refine ⟨not_prefix_bang 'y' 't' _ _ rfl (by decide), ?_⟩
      rw [List.all_eq_true]
      intro l hl
      obtain ⟨a, _, rfl⟩ := List.mem_map.mp hl
      exact not_prefix_bang 'y' ' ' _ _ rfl (by decide)
    · rfl

/-- C2 counterexample: the year key is present (with an empty value) in this
record, yet the script resolves the year from the date field, not from the
year field, because the Python or-chain treats the empty string as absent. -/
theorem c2_counterexample :
    List.lookup "year" [("year", ""), ("date", "2021-05-01")] = some ""
    ∧ yearOf [("year", ""), ("date", "2021-05-01")] = "2021"
    ∧ (("2021" : String) == "") = false := by
  exact ⟨by decide, by decide, by decide⟩

/-- C2 (amended): the resolved year is the explicit year field when present
and non-empty; otherwise, when a date field is present, the prefix of the
date before the first hyphen; when neither field is present the sentinel
n.d. results and the rendered front matter contains no year line.  A record
with date 2021-05-01 and no year resolves to 2021. -/
theorem c2_year_amended (r : Record) :
    (∀ y, List.lookup "year" r = some y → y ≠ "" → yearOf r = y)
    ∧ ((List.lookup "year" r = none ∨ List.lookup "year" r = some "") →
        ∀ d, List.lookup "date" r = some d → yearOf r = datePrefix d)
    ∧ (List.lookup "year" r = none → List.lookup "date" r = none →
        yearOf r = "n.d."
        ∧ (frontMatterLines (fieldsOfEntry r)).all
            (fun l => !("year:".data.isPrefixOf l.data)) = true)
    ∧ yearOf [("date", "2021-05-01")] = "2021" := by
  refine ⟨?_, ?_, ?_, by decide⟩
  · intro y hy hne
    simp [yearOf, recordGet, pyOrStr, hy, hne]
  · intro hy d hd
    rcases hy with hy | hy <;> simp [yearOf, recordGet, pyOrStr, hy, hd]
  · intro hy hd
    have hval : yearOf r = "n.d." := by
      simp [yearOf, recordGet, pyOrStr, hy, hd, datePrefix]
    refine ⟨hval, no_year_line_of_sentinel _ (Or.inr ?_)⟩
    exact hval

/-- Witness for c2_year_amended: each branch applied at a concrete record. -/
theorem c2_year_amended_witness :
    (List.lookup "year" [("year", "1999")] = some "1999"
      ∧ ("1999" : String) ≠ "" ∧ yearOf [("year", "1999")] = "1999")
    ∧ (List.lookup "year" ([("date", "2021-05-01")] : Record) = none
      ∧ List.lookup "date" ([("date", "2021-05-01")] : Record) = some "2021-05-01"
      ∧ yearOf [("date", "2021-05-01")] = datePrefix "2021-05-01")
    ∧ (List.lookup "year" ([] : Record) = none
      ∧ List.lookup "date" ([] : Record) = none
      ∧ yearOf [] = "n.d."
      ∧ (frontMatterLines (fieldsOfEntry [])).all
          (fun l => !("year:".data.isPrefixOf l.data)) = true) := by
  refine ⟨⟨by decide, by decide,
      (c2_year_amended [("year", "1999")]).1 "1999" (by decide) (by decide)⟩,
    ⟨by decide, by decide,
      (c2_year_amended [("date", "2021-05-01")]).2.1 (Or.inl (by decide))
        "2021-05-01" (by decide)⟩,
    ⟨by decide, by decide,
      ((c2_year_amended ([] : Record)).2.2.1 (by decide) (by decide)).1,
      ((c2_year_amended ([] : Record)).2.2.1 (by decide) (by decide)).2⟩⟩

theorem stringDataEq (s t : String) (h : s.data = t.data) : s = t :=
  congrArg String.mk h

/-- C5 counterexample: on the empty record the absent title field degrades to
the non-empty default No Title and the absent year to the sentinel n.d., not
to an empty string or empty list as the claim states. -/
theorem c5_counterexample :
    (fieldsOfEntry []).title = "No Title"
    ∧ ((fieldsOfEntry []).title == "") = false
    ∧ (fieldsOfEntry []).year = "n.d."
    ∧ ((fieldsOfEntry []).year == "") = false := by
  exact ⟨by decide, by decide, by decide, by decide⟩

/-- C5 (amended): the field transformation is a total function of the Record;
absent fields degrade to fixed defaults rather than errors: the empty string
for journal, doi, url and abstract, the empty list for tags and authors, and
the non-empty defaults No Title for the title, no_id for the identifier and
the sentinel n.d. for the year. -/
theorem c5_defaults_amended (r : Record) :
    (List.lookup "title" r = none → (fieldsOfEntry r).title = "No Title")
    ∧ (List.lookup "ID" r = none → (fieldsOfEntry r).bib_key = "no_id")
    ∧ (List.lookup "journaltitle" r = none → List.lookup "journal" r = none →
        (fieldsOfEntry r).journal = "")
    ∧ (List.lookup "doi" r = none → (fieldsOfEntry r).doi = "")
    ∧ (List.lookup "url" r = none → (fieldsOfEntry r).url = "")
    ∧ (List.lookup "keywords" r = none → (fieldsOfEntry r).tags = [])
    ∧ (List.lookup "author" r = none → (fieldsOfEntry r).authors = [])
    ∧ (List.lookup "abstract" r = none → (fieldsOfEntry r).abstract = "")
    ∧ (List.lookup "year" r = none → List.lookup "date" r = none →
        (fieldsOfEntry r).year = "n.d.") := by
  refine ⟨?_, ?_, ?_, ?_, ?_, ?_, ?_, ?_, ?_⟩
  · intro h
    show clean_title (recordGet r "title" "No Title") = "No Title"
    rw [show recordGet r "title" "No Title" = "No Title" from by simp [recordGet, h]]
    decide
  · intro h
    show recordGet r "ID" "no_id" = "no_id"
    simp [recordGet, h]
  · intro h1 h2
    show pyOrStr (recordGet r "journaltitle" "") (recordGet r "journal" "") = ""
    simp [recordGet, pyOrStr, h1, h2]
  · intro h
    show recordGet r "doi" "" = ""
    simp [recordGet, h]
  · intro h
    show recordGet r "url" "" = ""
    simp [recordGet, h]
  · intro h
    show format_tags (recordGet r "keywords" "") = []
    rw [show recordGet r "keywords" "" = "" from by simp [recordGet, h]]
    decide
  · intro h
    show parse_authors (recordGet r "author" "") = []
    rw [show recordGet r "author" "" = "" from by simp [recordGet, h]]
    decide
  · intro h
    show cleanAbstract (recordGet r "abstract" "") = ""
    rw [show recordGet r "abstract" "" = "" from by simp [recordGet, h]]
    decide
  · intro h1 h2
    show yearOf r = "n.d."
    rw [yearOf, show recordGet r "year" "" = "" from by simp [recordGet, h1],
      show recordGet r "date" "n.d." = "n.d." from by simp [recordGet, h2]]
    decide

/-- Witness for c5_defaults_amended, applied at the empty record. -/
theorem c5_defaults_amended_witness :
    (fieldsOfEntry []).title = "No Title"
    ∧ (fieldsOfEntry []).bib_key = "no_id"
    ∧ (fieldsOfEntry []).journal = ""
    ∧ (fieldsOfEntry []).doi = ""
    ∧ (fieldsOfEntry []).url = ""
    ∧ (fieldsOfEntry []).tags = []
    ∧ (fieldsOfEntry []).authors = []
    ∧ (fieldsOfEntry []).abstract = ""
    ∧ (fieldsOfEntry []).year = "n.d." :=
  ⟨(c5_defaults_amended []).1 rfl,
   (c5_defaults_amended []).2.1 rfl,
   (c5_defaults_amended []).2.2.1 rfl rfl,
   (c5_defaults_amended []).2.2.2.1 rfl,
   (c5_defaults_amended []).2.2.2.2.1 rfl,
   (c5_defaults_amended []).2.2.2.2.2.1 rfl,
   (c5_defaults_amended []).2.2.2.2.2.2.1 rfl,
   (c5_defaults_amended []).2.2.2.2.2.2.2.1 rfl,
   (c5_defaults_amended []).2.2.2.2.2.2.2.2 rfl rfl⟩

/-- Every maximal whitespace run collapsed to one space: the transformation
claim C6 describes, with extra whitespace collapsed whether or not a line
break is present. -/
def collapseAllWSAux (inRun : Bool) : List Char → List Char
  | [] => []
  | c :: cs =>
    if pyIsSpace c then
      if inRun then collapseAllWSAux true cs else ' ' :: collapseAllWSAux true cs
    else c :: collapseAllWSAux false cs

/-- Abstract cleaning exactly as claim C6 words it: line breaks and extra
whitespace collapsed to single spaces. -/
def claimAbstractC6 (abstract : String) : String :=
  ⟨collapseAllWSAux false abstract.data⟩

/-- C6 counterexample: a record whose abstract has a double space with no
line break keeps the double space (the script only rewrites whitespace runs
containing a line break), while the claim says extra whitespace is collapsed
to single spaces; the script also strips surrounding whitespace, which the
claim does not mention. -/
theorem c6_counterexample :
    (fieldsOfEntry [("abstract", "a  b")]).abstract = "a  b"
    ∧ claimAbstractC6 "a  b" = "a b"
    ∧ ((fieldsOfEntry [("abstract", "a  b")]).abstract == claimAbstractC6 "a  b") = false
    ∧ (fieldsOfEntry [("abstract", " a")]).abstract = "a"
    ∧ claimAbstractC6 " a" = " a" := by
  exact ⟨by decide, by decide, by decide, by decide, by decide⟩

/-- Abstract cleaning as amended for C6: the empty abstract stays empty;
otherwise every whitespace run containing a line break is collapsed to one
space, surrounding whitespace is stripped, and whitespace runs without a line
break are kept unchanged. -/
def amendedAbstractC6 (abstract : String) : String :=
  if abstract = "" then "" else ⟨pyStripL (collapseNL abstract.data)⟩

/-- C6 (amended): for every Record the transformed abstract is the source
abstract with each whitespace run containing a line break collapsed to one
space and surrounding whitespace stripped; shown on a record with a wrapped
abstract line. -/
theorem c6_abstract_amended :
    (∀ r : Record,
      (fieldsOfEntry r).abstract = amendedAbstractC6 (recordGet r "abstract" ""))
    ∧ (fieldsOfEntry [("abstract", "line1\n  line2  x")]).abstract
        = "line1 line2  x" := by
  constructor
  · intro r
    show cleanAbstract (recordGet r "abstract" "") = _
    by_cases h : recordGet r "abstract" "" = ""
    · simp [cleanAbstract, amendedAbstractC6, h]
    · simp [cleanAbstract, amendedAbstractC6, h]
  · decide

/-- C9: a Record without the ID key gets the identifier no_id in its output
filename, and a Record without the title key uses the title No Title in the
front matter, in the heading and in the filename. -/
theorem c9_default_id_title (r : Record) :
    (List.lookup "ID" r = none →
      fileNameOf r
        = sanitize_filename (fieldsOfEntry r).title ++ " (" ++ "no_id" ++ ").md")
    ∧ (List.lookup "title" r = none →
      (fieldsOfEntry r).title = "No Title"
      ∧ headingLine (fieldsOfEntry r) = "# No Title"
      ∧ (frontMatterLines (fieldsOfEntry r)).head? = some "title: \"No Title\""
      ∧ fileNameOf r = "No Title" ++ " (" ++ (fieldsOfEntry r).bib_key ++ ").md") := by
  constructor
  · intro h
    show noteFileName (fieldsOfEntry r).title (recordGet r "ID" "no_id") = _
    rw [show recordGet r "ID" "no_id" = "no_id" from by simp [recordGet, h]]
    rfl
  · intro h
    have htitle : (fieldsOfEntry r).title = "No Title" := by
      show clean_title (recordGet r "title" "No Title") = "No Title"
      rw [show recordGet r "title" "No Title" = "No Title" from by simp [recordGet, h]]
      decide
    refine ⟨htitle, ?_, ?_, ?_⟩
    · rw [headingLine, htitle]
      decide
    · show some ("title: \"" ++ (fieldsOfEntry r).title ++ "\"") = _
      rw [htitle]
      decide
    · show noteFileName (fieldsOfEntry r).title (fieldsOfEntry r).bib_key = _
      rw [noteFileName, htitle,
        show sanitize_filename "No Title" = "No Title" from by decide]

/-- Witness for c9_default_id_title, applied at the empty record. -/
theorem c9_default_id_title_witness :
    fileNameOf []
      = sanitize_filename (fieldsOfEntry []).title ++ " (" ++ "no_id" ++ ").md"
    ∧ (fieldsOfEntry []).title = "No Title"
    ∧ headingLine (fieldsOfEntry []) = "# No Title"
    ∧ (frontMatterLines (fieldsOfEntry [])).head? = some "title: \"No Title\""
    ∧ fileNameOf [] = "No Title" ++ " (" ++ (fieldsOfEntry []).bib_key ++ ").md" :=
  ⟨(c9_default_id_title []).1 rfl,
   ((c9_default_id_title []).2 rfl).1,
   ((c9_default_id_title []).2 rfl).2.1,
   ((c9_default_id_title []).2 rfl).2.2.1,
   ((c9_default_id_title []).2 rfl).2.2.2⟩

/-- The outcome of one attempted note creation: the success print or the
error print of the try/except around the file write (lines 97 to 102 of the
script). -/
inductive NoteResult where
  | created (path : String)
  | writeError (path : String)
deriving Repr, DecidableEq

/-- os.path.join of the output directory and the computed filename (line 95),
for a directory name without a trailing separator. -/
def notePath (output_dir : String) (entry : Record) : String :=
  output_dir ++ "/" ++ fileNameOf entry

/-- create_literature_note_from_entry: field transform, rendering and write
for one entry.  File-system success is abstracted by the writeOk oracle; an
IOError during the write is caught inside the function, which therefore
always returns normally, reporting either outcome. -/
def create_literature_note_from_entry (writeOk : String → Bool) (entry : Record)
    (output_dir : String) : NoteResult :=
  if writeOk (notePath output_dir entry) then NoteResult.created (notePath output_dir entry)
  else NoteResult.writeError (notePath output_dir entry)

/-- The per-entry loop of process_bib_file (lines 117 and 118). -/
def processEntries (writeOk : String → Bool) (entries : List Record)
    (output_dir : String) : List NoteResult :=
  entries.map (fun e => create_literature_note_from_entry writeOk e output_dir)

/-- C7: a record whose write fails is reported as a write error in place and
the records after it are still processed, with exactly the outcomes they
would have on their own; one failing record never halts the rest of the
file. -/
theorem c7_record_isolation (writeOk : String → Bool) (output_dir : String)
    (es₁ es₂ : List Record) (e : Record)
    (hfail : writeOk (notePath output_dir e) = false) :
    processEntries writeOk (es₁ ++ e :: es₂) output_dir
      = processEntries writeOk es₁ output_dir
        ++ NoteResult.writeError (notePath output_dir e)
          :: processEntries writeOk es₂ output_dir := by
  simp [processEntries, create_literature_note_from_entry, hfail]

/-- Witness for c7_record_isolation: a concrete batch in which every write
fails. -/
theorem c7_record_isolation_witness :
    ((fun _ => false) (notePath "notes" []) = false)
    ∧ processEntries (fun _ => false) ([[("ID", "a2020")]] ++ [] :: []) "notes"
      = processEntries (fun _ => false) [[("ID", "a2020")]] "notes"
        ++ NoteResult.writeError (notePath "notes" [])
          :: processEntries (fun _ => false) [] "notes" :=
  ⟨rfl, c7_record_isolation (fun _ => false) "notes" [[("ID", "a2020")]] [] [] rfl⟩

/-- One input path as the batch driver sees it: a missing file, a file whose
parse raises, or a file parsed into its entries. -/
inductive BibFile where
  | missing (path : String)
  | parseFailure (path msg : String)
  | parsed (path : String) (entries : List Record)

/-- What process_bib_file reports for one input file (lines 105 to 120): a
missing file and a parse failure are reported and skipped, an empty entry
list is reported informationally, and otherwise every entry is processed. -/
inductive FileReport where
  | fileNotFound (path : String)
  | fileError (path msg : String)
  | noEntries (path : String)
  | processed (path : String) (results : List NoteResult)

/-- process_bib_file from the script, over the abstracted file system: the
existence check, the try/except around parsing, and the entry loop. -/
def process_bib_file (writeOk : String → Bool) (file : BibFile)
    (output_dir : String) : FileReport :=
  match file with
  | BibFile.missing p => FileReport.fileNotFound p
  | BibFile.parseFailure p msg => FileReport.fileError p msg
  | BibFile.parsed p entries =>
    if entries = [] then FileReport.noEntries p
    else FileReport.processed p (processEntries writeOk entries output_dir)

/-- The driver loop of main (lines 143 and 144): each input file is handed to
process_bib_file in order and the loop never raises. -/
def mainLoop (writeOk : String → Bool) (files : List BibFile)
    (output_dir : String) : List FileReport :=
  files.map (fun f => process_bib_file writeOk f output_dir)

/-- C8: a missing input file or an unparseable input file produces exactly
one per-file error report, while every other file in the batch is processed
exactly as it would be alone; in particular a batch of one parsed file
followed by one missing file fully processes the first and reports the
second. -/
theorem c8_file_isolation (writeOk : String → Bool) (output_dir : String)
    (fs₁ fs₂ : List BibFile) (p q msg : String) (es : List Record)
    (hes : es ≠ []) :
    (mainLoop writeOk (fs₁ ++ BibFile.missing q :: fs₂) output_dir
      = mainLoop writeOk fs₁ output_dir
        ++ FileReport.fileNotFound q :: mainLoop writeOk fs₂ output_dir)
    ∧ (mainLoop writeOk (fs₁ ++ BibFile.parseFailure p msg :: fs₂) output_dir
      = mainLoop writeOk fs₁ output_dir
        ++ FileReport.fileError p msg :: mainLoop writeOk fs₂ output_dir)
    ∧ (mainLoop writeOk [BibFile.parsed p es, BibFile.missing q] output_dir
      = [FileReport.processed p (processEntries writeOk es output_dir),
          FileReport.fileNotFound q]) := by
  refine ⟨?_, ?_, ?_⟩
  · simp [mainLoop, process_bib_file]
  · simp [mainLoop, process_bib_file]
  · simp [mainLoop, process_bib_file, hes]

/-- Witness for c8_file_isolation: a concrete two-file batch whose second
file is missing. -/
theorem c8_file_isolation_witness :
    (([[("ID", "a2020")]] : List Record) ≠ [])
    ∧ mainLoop (fun _ => true)
        [BibFile.parsed "refs.bib" [[("ID", "a2020")]], BibFile.missing "gone.bib"]
        "notes"
      = [FileReport.processed "refs.bib"
          (processEntries (fun _ => true) [[("ID", "a2020")]] "notes"),
          FileReport.fileNotFound "gone.bib"] :=
  ⟨by simp,
    (c8_file_isolation (fun _ => true) "notes" [] [] "refs.bib" "gone.bib" ""
      [[("ID", "a2020")]] (by simp)).2.2⟩
